import Mathlib

/-!
# Verification of the CDP transport in `grok-image-gen`

Shallow embedding of the remote-debugging transport of the repository
(`scripts/grok-utils.ts`, the `CdpConnection` class) and of the
existing-session detector `getExistingDebugPort`.

The JavaScript runtime is single threaded: the `send` body up to the first
`await`, each `message` handler invocation, each timer callback and the
`close` handler each run atomically.  The transport is therefore modelled as
a deterministic step function on an explicit connection state, driven by a
trace of events (a `send` call, an incoming channel message, a timer firing,
the socket's `close` event, an `on` registration).  Each step also emits the
externally visible actions it performs: the id it assigns, the listener
invocations, and the settlements (resolve/reject) of pending promises.

JavaScript truthiness is modelled explicitly where the source relies on it:
`if (msg.id)` is false for a missing id and for id `0`; `if (msg.method)` is
false for a missing method and for the empty string; `if (msg.error?.message)`
is false for a missing error object, a missing message and the empty string.
Listener callbacks are modelled as opaque tokens that return normally.
-/

namespace GrokCdp

/-- The `error` field of an incoming message: `{ message?: string }`. -/
structure ErrPayload where
  message : Option String
deriving DecidableEq

/-- An incoming channel message, after `JSON.parse`:
`{ id?: number; method?: string; params?: unknown; result?: unknown;
error?: { message?: string } }`.  The opaque `params` / `result` payloads are
modelled as optional strings. -/
structure Msg where
  id : Option Nat
  method : Option String
  params : Option String
  result : Option String
  error : Option ErrPayload
deriving DecidableEq

/-- How a `send` call's promise settles. -/
inductive Outcome where
  /-- `pending.resolve(msg.result)` -/
  | result (value : Option String)
  /-- `pending.reject(new Error(msg.error.message))` -/
  | remoteError (message : String)
  /-- `reject(new Error(`CDP timeout: ${method}`))` -/
  | timeout (method : String)
  /-- `pending.reject(new Error('CDP connection closed.'))` -/
  | channelClosed
deriving DecidableEq

/-- One entry of the `pending` map.  The `resolve` / `reject` slots live in
the emitted actions; the model keeps the data the closure captures: the
method name (used in the timeout message) and whether a timer was armed
(`timer ≠ null`, i.e. the effective timeout was positive). -/
structure PendingRequest where
  method : String
  timerArmed : Bool
deriving DecidableEq

/-- Constructor options of `CdpConnection`: `{ defaultTimeoutMs?: number }`. -/
structure Config where
  defaultTimeoutMs : Option Int
deriving DecidableEq

/-- `this.defaultTimeoutMs = options?.defaultTimeoutMs ?? 15_000`. -/
def Config.resolvedDefault (c : Config) : Int :=
  c.defaultTimeoutMs.getD 15000

/-- `const timeoutMs = options?.timeoutMs ?? this.defaultTimeoutMs`. -/
def effectiveTimeoutMs (c : Config) (perCall : Option Int) : Int :=
  perCall.getD c.resolvedDefault

/-- `timeoutMs > 0 ? setTimeout(...) : null` — whether a timer is armed. -/
def timerFor (t : Int) : Bool :=
  decide (0 < t)

/-- Externally visible actions a step performs. -/
inductive Action where
  /-- `send` ran `const id = ++this.nextId` for a call on `method`. -/
  | assign (id : Nat) (method : String)
  /-- an event listener (identified by a token) was invoked with `msg.params`. -/
  | deliver (handler : Nat) (method : String) (params : Option String)
  /-- the pending call `id` settled with outcome `o`. -/
  | settle (id : Nat) (o : Outcome)
deriving DecidableEq

/-- The atomic events that can act on a connection. -/
inductive Event where
  /-- a caller runs the synchronous part of `send(method, params, options)`;
  `perCallTimeoutMs` is `options?.timeoutMs`. -/
  | send (method : String) (perCallTimeoutMs : Option Int)
  /-- the `message` listener fires with a parsed message. -/
  | message (msg : Msg)
  /-- the timer armed for call `id` fires. -/
  | timerFire (id : Nat)
  /-- the `close` listener fires. -/
  | closeEvent
  /-- a caller runs `on(method, handler)`. -/
  | onReg (method : String) (handler : Nat)
deriving DecidableEq

/-- The mutable state of one `CdpConnection`.  The `Map` / `Set` fields are
modelled as association lists with unique keys (a JavaScript `Map` holds at
most one entry per key; a `Set` holds each element once). -/
structure ConnState where
  nextId : Nat
  pending : List (Nat × PendingRequest)
  eventHandlers : List (String × List Nat)
deriving DecidableEq

/-- `this.pending.get(k)`. -/
def mapGet (k : Nat) : List (Nat × PendingRequest) → Option PendingRequest
  | [] => none
  | p :: rest => if p.1 = k then some p.2 else mapGet k rest

/-- `this.pending.delete(k)` (keys are unique, so filtering is `Map.delete`). -/
def mapDelete (k : Nat) (l : List (Nat × PendingRequest)) :
    List (Nat × PendingRequest) :=
  l.filter (fun p => p.1 != k)

/-- `this.pending.set(k, v)`: replace any entry for `k`, else add one. -/
def mapSet (k : Nat) (v : PendingRequest) (l : List (Nat × PendingRequest)) :
    List (Nat × PendingRequest) :=
  (k, v) :: mapDelete k l

/-- `this.eventHandlers.get(m)` as a list of handler tokens (empty when the
key is absent, matching the `if (handlers)` guard skipping dispatch). -/
def getHandlers (m : String) : List (String × List Nat) → List Nat
  | [] => []
  | (m', hs) :: rest => if m' = m then hs else getHandlers m rest

/-- `on(method, handler)`: create the `Set` if absent, then `Set.add`. -/
def addHandler (m : String) (h : Nat) : List (String × List Nat) →
    List (String × List Nat)
  | [] => [(m, [h])]
  | (m', hs) :: rest =>
    if m' = m then (m', if h ∈ hs then hs else hs ++ [h]) :: rest
    else (m', hs) :: addHandler m h rest

/-- `if (msg.error?.message) reject(new Error(msg.error.message))
else resolve(msg.result)`. -/
def decodeSettle (msg : Msg) : Outcome :=
  match msg.error with
  | some e =>
    match e.message with
    | some m => if m = "" then Outcome.result msg.result else Outcome.remoteError m
    | none => Outcome.result msg.result
  | none => Outcome.result msg.result

/-- The event-dispatch half of the `message` handler:
`if (msg.method) { const handlers = ...; if (handlers) handlers.forEach(h => h(msg.params)) }`. -/
def deliveries (s : ConnState) (msg : Msg) : List Action :=
  match msg.method with
  | some m =>
    if m = "" then []
    else (getHandlers m s.eventHandlers).map (fun h => Action.deliver h m msg.params)
  | none => []

/-- The response half of the `message` handler:
`if (msg.id) { const pending = this.pending.get(msg.id); if (pending) {
this.pending.delete(msg.id); clearTimeout; settle } }`.
Returns the new pending map and the settlement performed. -/
def respond (s : ConnState) (msg : Msg) :
    List (Nat × PendingRequest) × List Action :=
  match msg.id with
  | some i =>
    if i = 0 then (s.pending, [])
    else
      match mapGet i s.pending with
      | some _ => (mapDelete i s.pending, [Action.settle i (decodeSettle msg)])
      | none => (s.pending, [])
  | none => (s.pending, [])

/-- One atomic step of the connection. -/
def step (c : Config) (s : ConnState) : Event → ConnState × List Action
  | Event.send m perCall =>
    let id := s.nextId + 1
    let t := effectiveTimeoutMs c perCall
    ({ s with nextId := id, pending := mapSet id ⟨m, timerFor t⟩ s.pending },
     [Action.assign id m])
  | Event.message msg =>
    let r := respond s msg
    ({ s with pending := r.1 }, deliveries s msg ++ r.2)
  | Event.timerFire i =>
    match mapGet i s.pending with
    | some pr =>
      if pr.timerArmed then
        ({ s with pending := mapDelete i s.pending },
         [Action.settle i (Outcome.timeout pr.method)])
      else (s, [])
    | none => (s, [])
  | Event.closeEvent =>
    ({ s with pending := [] },
     s.pending.map (fun p => Action.settle p.1 Outcome.channelClosed))
  | Event.onReg m h =>
    ({ s with eventHandlers := addHandler m h s.eventHandlers }, [])

/-- A fresh connection: `nextId = 0`, empty maps. -/
def initState : ConnState :=
  { nextId := 0, pending := [], eventHandlers := [] }

/-- Run a trace of events from a state, accumulating the actions. -/
def runFrom (c : Config) : ConnState → List Event → ConnState × List Action
  | s, [] => (s, [])
  | s, e :: es =>
    let r := step c s e
    let rest := runFrom c r.1 es
    (rest.1, r.2 ++ rest.2)

/-- Run a trace of events on a fresh connection. -/
def run (c : Config) (es : List Event) : ConnState × List Action :=
  runFrom c initState es

/-- The id of a settlement action, if it is one. -/
def settleId? : Action → Option Nat
  | Action.settle i _ => some i
  | _ => none

/-- The ids of the settlements in an action log, in order. -/
def settleIds (log : List Action) : List Nat :=
  log.filterMap settleId?

/-- The id of an assignment action, if it is one. -/
def assignId? : Action → Option Nat
  | Action.assign i _ => some i
  | _ => none

/-- The call ids assigned in an action log, in order. -/
def assignedIds (log : List Action) : List Nat :=
  log.filterMap assignId?

/-- The ids with a pending call in a state. -/
def pendingIds (s : ConnState) : List Nat :=
  s.pending.map (fun p => p.1)

/-! ## The existing-session detector `getExistingDebugPort`

The function's effects — reading the `DevToolsActivePort` marker file,
probing `http://127.0.0.1:<port>/json/version`, and running `ps aux` — are
supplied by an environment record; `Except Unit` models a throwing effect.
The function itself is total over any environment, mirroring its try/catch
structure. -/

/-- The effectful primitives `getExistingDebugPort` uses. -/
structure DetectEnv where
  /-- `fs.promises.readFile(path.join(profileDir, 'DevToolsActivePort'), 'utf8')`. -/
  readMarker : Except Unit String
  /-- per port: `fetch(...json/version).ok`, or a thrown network error. -/
  fetchOk : Nat → Except Unit Bool
  /-- `execSync('ps aux', ...)`, or a thrown error. -/
  psOutput : Except Unit String

/-- Decimal digits to a number. -/
def digitsToNat (ds : List Char) : Nat :=
  ds.foldl (fun n c => 10 * n + (c.toNat - 48)) 0

/-- JavaScript `parseInt(s, 10)`: skip leading whitespace, optional sign,
then a maximal run of decimal digits; `none` models `NaN`. -/
def parseIntJS (s : String) : Option Int :=
  let cs := s.toList.dropWhile (fun c => c == ' ' || c == '\t' || c == '\n' || c == '\r')
  match cs with
  | '-' :: rest =>
    let ds := rest.takeWhile Char.isDigit
    if ds.isEmpty then none else some (-(digitsToNat ds : Int))
  | '+' :: rest =>
    let ds := rest.takeWhile Char.isDigit
    if ds.isEmpty then none else some (digitsToNat ds : Int)
  | _ =>
    let ds := cs.takeWhile Char.isDigit
    if ds.isEmpty then none else some (digitsToNat ds : Int)

/-- JavaScript `s.includes(pat)`. -/
def includes (s pat : String) : Bool :=
  decide (pat.toList <:+: s.toList)

/-- `profileDir.replace(/\/+$/, '')`: strip trailing slashes. -/
def stripTrailingSlashes (s : String) : String :=
  String.mk ((s.toList.reverse.dropWhile (fun c => c == '/')).reverse)

/-- The regex match `line.match` with pattern "--remote-debugging-port="
followed by one or more captured digits: the digits captured at the first
position where the whole pattern matches (at least one digit must follow the
literal flag). -/
def extractPortDigits : List Char → Option (List Char)
  | [] => none
  | c :: rest =>
    let pat := "--remote-debugging-port=".toList
    if pat.isPrefixOf (c :: rest) then
      let ds := ((c :: rest).drop pat.length).takeWhile Char.isDigit
      if ds.isEmpty then extractPortDigits rest else some ds
    else extractPortDigits rest

/-- Method 1 of `getExistingDebugPort`: read the `DevToolsActivePort` marker,
parse its first line, and probe the port; every failure falls through. -/
def markerPort (env : DetectEnv) : Option Nat :=
  match env.readMarker with
  | Except.error _ => none
  | Except.ok content =>
    match parseIntJS ((content.splitOn "\n").headD "") with
    | some p =>
      if 0 < p then
        match env.fetchOk p.toNat with
        | Except.ok true => some p.toNat
        | _ => none
      else none
    | none => none

/-- The filter on one `ps aux` line:
`line.includes('--remote-debugging-port=') && line.includes(normProfile)`,
then the regex capture. -/
def lineMatch (normProfile line : String) : Option Nat :=
  if includes line "--remote-debugging-port=" && includes line normProfile then
    (extractPortDigits line.toList).map digitsToNat
  else none

/-- Method 2's loop over the lines of `ps aux`; a failing or non-ok probe is
swallowed and the loop continues. -/
def psLoop (env : DetectEnv) (normProfile : String) : List String → Option Nat
  | [] => none
  | line :: rest =>
    match lineMatch normProfile line with
    | some port =>
      if 0 < port then
        match env.fetchOk port with
        | Except.ok true => some port
        | _ => psLoop env normProfile rest
      else psLoop env normProfile rest
    | none => psLoop env normProfile rest

/-- `getExistingDebugPort(profileDir)`.  The `Except` result records whether
the call throws; the final `return null` is `Except.ok none`. -/
def getExistingDebugPort (profileDir : String) (env : DetectEnv) :
    Except Unit (Option Nat) :=
  match markerPort env with
  | some p => Except.ok (some p)
  | none =>
    match env.psOutput with
    | Except.error _ => Except.ok none
    | Except.ok ps =>
      Except.ok (psLoop env (stripTrailingSlashes profileDir) (ps.splitOn "\n"))

/-! ## Basic lemmas about the action log and the pending map -/

@[simp]
lemma settleIds_nil : settleIds [] = [] := rfl

@[simp]
lemma settleIds_append (l₁ l₂ : List Action) :
    settleIds (l₁ ++ l₂) = settleIds l₁ ++ settleIds l₂ :=
  List.filterMap_append l₁ l₂ settleId?

@[simp]
lemma settleIds_cons_assign (i : Nat) (m : String) (l : List Action) :
    settleIds (Action.assign i m :: l) = settleIds l := rfl

@[simp]
lemma settleIds_cons_deliver (h : Nat) (m : String) (p : Option String)
    (l : List Action) :
    settleIds (Action.deliver h m p :: l) = settleIds l := rfl

@[simp]
lemma settleIds_cons_settle (i : Nat) (o : Outcome) (l : List Action) :
    settleIds (Action.settle i o :: l) = i :: settleIds l := rfl

@[simp]
lemma assignedIds_nil : assignedIds [] = [] := rfl

@[simp]
lemma assignedIds_append (l₁ l₂ : List Action) :
    assignedIds (l₁ ++ l₂) = assignedIds l₁ ++ assignedIds l₂ :=
  List.filterMap_append l₁ l₂ assignId?

@[simp]
lemma assignedIds_cons_assign (i : Nat) (m : String) (l : List Action) :
    assignedIds (Action.assign i m :: l) = i :: assignedIds l := rfl

@[simp]
lemma assignedIds_cons_deliver (h : Nat) (m : String) (p : Option String)
    (l : List Action) :
    assignedIds (Action.deliver h m p :: l) = assignedIds l := rfl

@[simp]
lemma assignedIds_cons_settle (i : Nat) (o : Outcome) (l : List Action) :
    assignedIds (Action.settle i o :: l) = assignedIds l := rfl

lemma settleIds_deliveries (s : ConnState) (msg : Msg) :
    settleIds (deliveries s msg) = [] := by
  unfold deliveries
  cases msg.method with
  | none => rfl
  | some m =>
    by_cases hm : m = "" <;>
      simp [hm, settleIds, List.filterMap_map, Function.comp, settleId?]

lemma assignedIds_deliveries (s : ConnState) (msg : Msg) :
    assignedIds (deliveries s msg) = [] := by
  unfold deliveries
  cases msg.method with
  | none => rfl
  | some m =>
    by_cases hm : m = "" <;>
      simp [hm, assignedIds, List.filterMap_map, Function.comp, assignId?]

@[simp]
lemma settleIds_closeActions (l : List (Nat × PendingRequest)) :
    settleIds (l.map (fun p => Action.settle p.1 Outcome.channelClosed)) =
      l.map (fun p => p.1) := by
  induction l with
  | nil => rfl
  | cons p rest ih => simpa [settleIds, settleId?] using ih

@[simp]
lemma assignedIds_closeActions (l : List (Nat × PendingRequest)) :
    assignedIds (l.map (fun p => Action.settle p.1 Outcome.channelClosed)) = [] := by
  simp [assignedIds, List.filterMap_map, Function.comp, assignId?]

lemma mem_map_fst_mapDelete {k j : Nat} {l : List (Nat × PendingRequest)} :
    j ∈ (mapDelete k l).map (fun p => p.1) ↔
      j ∈ l.map (fun p => p.1) ∧ j ≠ k := by
  simp only [mapDelete, List.mem_map, List.mem_filter]
  constructor
  · rintro ⟨p, ⟨hp, hk⟩, rfl⟩
    exact ⟨⟨p, hp, rfl⟩, by simpa using hk⟩
  · rintro ⟨⟨p, hp, rfl⟩, hk⟩
    exact ⟨p, ⟨hp, by simpa using hk⟩, rfl⟩

lemma nodup_map_fst_mapDelete {k : Nat} {l : List (Nat × PendingRequest)}
    (h : (l.map (fun p => p.1)).Nodup) :
    ((mapDelete k l).map (fun p => p.1)).Nodup :=
  h.sublist (List.Sublist.map _ (List.filter_sublist l))

lemma mapGet_eq_some_of_mem_fst {i : Nat} {l : List (Nat × PendingRequest)}
    (h : i ∈ l.map (fun p => p.1)) : ∃ pr, mapGet i l = some pr := by
  induction l with
  | nil => simp at h
  | cons p rest ih =>
    by_cases hp : p.1 = i
    · exact ⟨p.2, by simp [mapGet, hp]⟩
    · have h1 : i ∈ rest.map (fun q => q.1) := by
        rcases List.mem_cons.mp h with h1 | h1
        · exact absurd h1.symm hp
        · exact h1
      obtain ⟨pr, hpr⟩ := ih h1
      exact ⟨pr, by simp [mapGet, hp, hpr]⟩

lemma mem_fst_of_mapGet_eq_some {i : Nat} {l : List (Nat × PendingRequest)}
    {pr : PendingRequest} (h : mapGet i l = some pr) :
    (i, pr) ∈ l := by
  induction l with
  | nil => simp [mapGet] at h
  | cons p rest ih =>
    by_cases hp : p.1 = i
    · simp only [mapGet, hp, if_true, Option.some.injEq] at h
      exact List.mem_cons.mpr (Or.inl (Prod.ext hp h).symm)
    · simp only [mapGet, hp, if_false] at h
      exact List.mem_cons_of_mem _ (ih h)

lemma mem_pendingIds_of_mapGet {i : Nat} {s : ConnState} {pr : PendingRequest}
    (h : mapGet i s.pending = some pr) : i ∈ pendingIds s := by
  have := mem_fst_of_mapGet_eq_some h
  exact List.mem_map.mpr ⟨(i, pr), this, rfl⟩

lemma mapDelete_eq_of_not_mem {k : Nat} {l : List (Nat × PendingRequest)}
    (h : k ∉ l.map (fun p => p.1)) : mapDelete k l = l := by
  unfold mapDelete
  apply List.filter_eq_self.mpr
  intro a ha
  simp only [bne_iff_ne, ne_eq]
  intro hek
  exact h (List.mem_map.mpr ⟨a, ha, hek⟩)

/-- Case analysis on the response half of the message handler: either it is a
no-op (no id, falsy id `0`, or no matching pending call), or it removes the
matching pending call and settles it with the message's decoded outcome. -/
lemma respond_cases (s : ConnState) (msg : Msg) :
    respond s msg = (s.pending, []) ∨
    ∃ i pr, msg.id = some i ∧ i ≠ 0 ∧ mapGet i s.pending = some pr ∧
      respond s msg = (mapDelete i s.pending,
        [Action.settle i (decodeSettle msg)]) := by
  unfold respond
  cases h : msg.id with
  | none => exact Or.inl rfl
  | some i =>
    by_cases hi : i = 0
    · exact Or.inl (by simp [hi])
    · cases hg : mapGet i s.pending with
      | none => exact Or.inl (by simp [hi, hg])
      | some pr => exact Or.inr ⟨i, pr, rfl, hi, hg, by simp [hi, hg]⟩

/-! ## The run invariant

`Inv s log` ties a reachable connection state to the action log that
produced it: pending ids are unique, settled ids are unique, no id is both
pending and settled, every pending or settled id lies in `[1, nextId]`, and
the assigned ids so far are exactly `1, 2, …, nextId`. -/

structure Inv (s : ConnState) (log : List Action) : Prop where
  pend_nodup : (pendingIds s).Nodup
  settle_nodup : (settleIds log).Nodup
  disj : ∀ i ∈ pendingIds s, i ∉ settleIds log
  pend_le : ∀ i ∈ pendingIds s, 1 ≤ i ∧ i ≤ s.nextId
  settle_le : ∀ i ∈ settleIds log, 1 ≤ i ∧ i ≤ s.nextId
  assigns : assignedIds log = List.range' 1 s.nextId

lemma Inv.init : Inv initState [] := by
  refine ⟨?_, ?_, ?_, ?_, ?_, ?_⟩ <;> simp [initState, pendingIds]

lemma step_send_fst (c : Config) (s : ConnState) (m : String)
    (perCall : Option Int) :
    (step c s (Event.send m perCall)).1 =
      { s with nextId := s.nextId + 1,
               pending := mapSet (s.nextId + 1)
                 ⟨m, timerFor (effectiveTimeoutMs c perCall)⟩ s.pending } := rfl

lemma step_send_snd (c : Config) (s : ConnState) (m : String)
    (perCall : Option Int) :
    (step c s (Event.send m perCall)).2 = [Action.assign (s.nextId + 1) m] := rfl

lemma step_message_fst (c : Config) (s : ConnState) (msg : Msg) :
    (step c s (Event.message msg)).1 = { s with pending := (respond s msg).1 } := rfl

lemma step_message_snd (c : Config) (s : ConnState) (msg : Msg) :
    (step c s (Event.message msg)).2 = deliveries s msg ++ (respond s msg).2 := rfl

lemma step_onReg_eq (c : Config) (s : ConnState) (m : String) (hd : Nat) :
    step c s (Event.onReg m hd) =
      ({ s with eventHandlers := addHandler m hd s.eventHandlers }, []) := rfl

lemma step_close_eq (c : Config) (s : ConnState) :
    step c s Event.closeEvent =
      ({ s with pending := [] },
       s.pending.map (fun p => Action.settle p.1 Outcome.channelClosed)) := rfl

lemma step_timerFire_none (c : Config) (s : ConnState) (i : Nat)
    (h : mapGet i s.pending = none) :
    step c s (Event.timerFire i) = (s, []) := by
  simp [step, h]

lemma step_timerFire_unarmed (c : Config) (s : ConnState) (i : Nat)
    (pr : PendingRequest) (h : mapGet i s.pending = some pr)
    (ha : pr.timerArmed = false) :
    step c s (Event.timerFire i) = (s, []) := by
  simp [step, h, ha]

lemma step_timerFire_armed (c : Config) (s : ConnState) (i : Nat)
    (pr : PendingRequest) (h : mapGet i s.pending = some pr)
    (ha : pr.timerArmed = true) :
    step c s (Event.timerFire i) =
      ({ s with pending := mapDelete i s.pending },
       [Action.settle i (Outcome.timeout pr.method)]) := by
  simp [step, h, ha]

lemma pendingIds_set_pending (s : ConnState) (n : Nat)
    (l : List (Nat × PendingRequest)) :
    pendingIds { s with nextId := n, pending := l } = l.map (fun p => p.1) := rfl

/-- Shared shape of the message-settle and timer-expiry cases: the pending
call `i` is removed and settled once. -/
lemma inv_remove_settle {s : ConnState} {log : List Action} {i : Nat}
    {o : Outcome} (pn : (pendingIds s).Nodup)
    (sn : (settleIds log).Nodup)
    (dj : ∀ j ∈ pendingIds s, j ∉ settleIds log)
    (pl : ∀ j ∈ pendingIds s, 1 ≤ j ∧ j ≤ s.nextId)
    (sl : ∀ j ∈ settleIds log, 1 ≤ j ∧ j ≤ s.nextId)
    (asg : assignedIds log = List.range' 1 s.nextId)
    (himem : i ∈ pendingIds s) :
    Inv { s with pending := mapDelete i s.pending }
      (log ++ [Action.settle i o]) := by
  refine ⟨?_, ?_, ?_, ?_, ?_, ?_⟩
  · exact nodup_map_fst_mapDelete (l := s.pending) pn
  · simp only [settleIds_append, settleIds_cons_settle, settleIds_nil]
    rw [List.nodup_append]
    refine ⟨sn, List.nodup_singleton i, ?_⟩
    intro a ha hb
    simp only [List.mem_singleton] at hb
    exact dj a (by rw [hb]; exact himem) ha
  · intro j hj
    have hj' := mem_map_fst_mapDelete.mp hj
    simp only [settleIds_append, settleIds_cons_settle, settleIds_nil,
      List.mem_append, List.mem_singleton]
    push_neg
    exact ⟨dj j hj'.1, hj'.2⟩
  · intro j hj
    exact pl j (mem_map_fst_mapDelete.mp hj).1
  · intro j hj
    simp only [settleIds_append, settleIds_cons_settle, settleIds_nil,
      List.mem_append, List.mem_singleton] at hj
    rcases hj with hj | rfl
    · exact sl j hj
    · exact pl j himem
  · simpa using asg

/-- Every event preserves the invariant, extending the log by the step's
actions. -/
lemma step_inv (c : Config) (s : ConnState) (log : List Action) (e : Event)
    (h : Inv s log) : Inv (step c s e).1 (log ++ (step c s e).2) := by
  obtain ⟨pn, sn, dj, pl, sl, asg⟩ := h
  cases e with
  | onReg m hd =>
    rw [step_onReg_eq]
    exact ⟨pn, by simpa using sn, by simpa using dj, pl, by simpa using sl,
      by simpa using asg⟩
  | send m perCall =>
    have hfresh : s.nextId + 1 ∉ pendingIds s := by
      intro hmem
      exact absurd (pl _ hmem).2 (by omega)
    have hdel : mapDelete (s.nextId + 1) s.pending = s.pending :=
      mapDelete_eq_of_not_mem hfresh
    rw [step_send_fst, step_send_snd]
    have hpend : pendingIds
        { s with nextId := s.nextId + 1,
                 pending := mapSet (s.nextId + 1)
                   ⟨m, timerFor (effectiveTimeoutMs c perCall)⟩ s.pending } =
        (s.nextId + 1) :: pendingIds s := by
      rw [pendingIds_set_pending, mapSet, List.map_cons, hdel]
      rfl
    refine ⟨?_, ?_, ?_, ?_, ?_, ?_⟩
    · rw [hpend]
      exact List.nodup_cons.mpr ⟨hfresh, pn⟩
    · simpa using sn
    · intro i hi
      rw [hpend] at hi
      rcases List.mem_cons.mp hi with rfl | hi
      · intro hc
        simp only [settleIds_append, settleIds_cons_assign, settleIds_nil,
          List.append_nil] at hc
        exact absurd (sl _ hc).2 (by omega)
      · intro hc
        simp only [settleIds_append, settleIds_cons_assign, settleIds_nil,
          List.append_nil] at hc
        exact dj i hi hc
    · intro i hi
      rw [hpend] at hi
      rcases List.mem_cons.mp hi with rfl | hi
      · exact ⟨Nat.le_add_left 1 s.nextId, Nat.le_refl (s.nextId + 1)⟩
      · have := pl i hi
        exact ⟨this.1, Nat.le_succ_of_le this.2⟩
    · intro i hi
      simp only [settleIds_append, settleIds_cons_assign, settleIds_nil,
        List.append_nil] at hi
      have := sl i hi
      exact ⟨this.1, Nat.le_succ_of_le this.2⟩
    · show assignedIds (log ++ [Action.assign (s.nextId + 1) m]) =
        List.range' 1 (s.nextId + 1)
      simp only [assignedIds_append, assignedIds_cons_assign,
        assignedIds_nil, asg, List.range'_1_concat, Nat.add_comm]
  | message msg =>
    rw [step_message_fst, step_message_snd]
    rcases respond_cases s msg with hr | ⟨i, pr, hid, hi0, hget, hr⟩
    · rw [hr]
      have hlog : settleIds (log ++ (deliveries s msg ++ [])) = settleIds log := by
        simp [settleIds_deliveries]
      have halog : assignedIds (log ++ (deliveries s msg ++ [])) = assignedIds log := by
        simp [assignedIds_deliveries]
      exact ⟨pn, by rw [hlog]; exact sn,
        fun i hi => by rw [hlog]; exact dj i hi, pl,
        fun i hi => by rw [hlog] at hi; exact sl i hi,
        by rw [halog]; exact asg⟩
    · rw [hr]
      have himem : i ∈ pendingIds s := mem_pendingIds_of_mapGet hget
      have base := inv_remove_settle (o := decodeSettle msg) pn sn dj pl sl asg himem
      obtain ⟨a1, a2, a3, a4, a5, a6⟩ := base
      have hlog : ∀ l : List Action,
          settleIds (log ++ (deliveries s msg ++ l)) = settleIds (log ++ l) := by
        intro l
        simp [settleIds_deliveries]
      have halog : ∀ l : List Action,
          assignedIds (log ++ (deliveries s msg ++ l)) = assignedIds (log ++ l) := by
        intro l
        simp [assignedIds_deliveries]
      exact ⟨a1, by rw [hlog]; exact a2, fun j hj => by rw [hlog]; exact a3 j hj,
        a4, fun j hj => by rw [hlog] at hj; exact a5 j hj,
        by rw [halog]; exact a6⟩
  | timerFire i =>
    cases hget : mapGet i s.pending with
    | none =>
      rw [step_timerFire_none c s i hget]
      exact ⟨pn, by simpa using sn, by simpa using dj, pl, by simpa using sl,
        by simpa using asg⟩
    | some pr =>
      cases harm : pr.timerArmed with
      | false =>
        rw [step_timerFire_unarmed c s i pr hget harm]
        exact ⟨pn, by simpa using sn, by simpa using dj, pl, by simpa using sl,
          by simpa using asg⟩
      | true =>
        rw [step_timerFire_armed c s i pr hget harm]
        exact inv_remove_settle pn sn dj pl sl asg
          (mem_pendingIds_of_mapGet hget)
  | closeEvent =>
    rw [step_close_eq]
    refine ⟨?_, ?_, ?_, ?_, ?_, ?_⟩
    · simp [pendingIds]
    · simp only [settleIds_append, settleIds_closeActions]
      rw [List.nodup_append]
      exact ⟨sn, pn, fun a ha hb => dj a hb ha⟩
    · intro j hj
      simp [pendingIds] at hj
    · intro j hj
      simp [pendingIds] at hj
    · intro j hj
      simp only [settleIds_append, settleIds_closeActions,
        List.mem_append] at hj
      rcases hj with hj | hj
      · exact sl j hj
      · exact pl j hj
    · simp only [assignedIds_append, assignedIds_closeActions,
        List.append_nil]
      exact asg

lemma runFrom_inv (c : Config) (s : ConnState) (log : List Action)
    (es : List Event) (h : Inv s log) :
    Inv (runFrom c s es).1 (log ++ (runFrom c s es).2) := by
  induction es generalizing s log with
  | nil => simpa [runFrom] using h
  | cons e es ih =>
    have h2 := ih (step c s e).1 (log ++ (step c s e).2) (step_inv c s log e h)
    simpa [runFrom, List.append_assoc] using h2

/-- The invariant holds of every reachable state with its action log. -/
lemma run_inv (c : Config) (es : List Event) :
    Inv (run c es).1 (run c es).2 := by
  simpa [run] using runFrom_inv c initState [] es Inv.init

lemma runFrom_append (c : Config) (s : ConnState) (es₁ es₂ : List Event) :
    runFrom c s (es₁ ++ es₂) =
      ((runFrom c (runFrom c s es₁).1 es₂).1,
       (runFrom c s es₁).2 ++ (runFrom c (runFrom c s es₁).1 es₂).2) := by
  induction es₁ generalizing s with
  | nil => simp [runFrom]
  | cons e es ih => simp [runFrom, ih, List.append_assoc]

/-! ## Lemmas supporting the individual claims -/

/-- Splitting a run at one event: the log is the prefix's log, then the
event's actions, then the continuation's log. -/
lemma run_middle (c : Config) (es₁ es₂ : List Event) (e : Event) :
    (run c (es₁ ++ e :: es₂)).2 =
      (run c es₁).2 ++ (step c (run c es₁).1 e).2 ++
      (runFrom c (step c (run c es₁).1 e).1 es₂).2 := by
  rw [run, runFrom_append]
  simp [runFrom, run, List.append_assoc]

lemma run_middle_fst (c : Config) (es₁ es₂ : List Event) (e : Event) :
    (run c (es₁ ++ e :: es₂)).1 =
      (runFrom c (step c (run c es₁).1 e).1 es₂).1 := by
  rw [run, runFrom_append]
  simp [runFrom, run]

lemma not_settle_mem_deliveries (s : ConnState) (msg : Msg) (i : Nat)
    (o : Outcome) : Action.settle i o ∉ deliveries s msg := by
  unfold deliveries
  cases msg.method with
  | none => simp
  | some m => by_cases hm : m = "" <;> simp [hm]

/-- Any settlement the message handler performs is keyed by the message's own
id and carries the message's own decoded outcome. -/
lemma settle_of_message_step (c : Config) (s : ConnState) (msg : Msg)
    (i : Nat) (o : Outcome)
    (h : Action.settle i o ∈ (step c s (Event.message msg)).2) :
    msg.id = some i ∧ o = decodeSettle msg := by
  rw [step_message_snd] at h
  rcases List.mem_append.mp h with h | h
  · exact absurd h (not_settle_mem_deliveries s msg i o)
  · rcases respond_cases s msg with hr | ⟨j, pr, hid, hj0, hget, hr⟩
    · rw [hr] at h
      simp at h
    · rw [hr] at h
      simp only [List.mem_singleton, Action.settle.injEq] at h
      obtain ⟨rfl, rfl⟩ := h
      exact ⟨hid, rfl⟩

/-- A message whose truthy id has a pending call settles exactly that call. -/
lemma message_settles_pending (c : Config) (s : ConnState) (msg : Msg)
    (i : Nat) (hid : msg.id = some i) (h0 : i ≠ 0) (hp : i ∈ pendingIds s) :
    Action.settle i (decodeSettle msg) ∈ (step c s (Event.message msg)).2 := by
  rw [step_message_snd]
  obtain ⟨pr, hget⟩ := mapGet_eq_some_of_mem_fst (l := s.pending) hp
  have hr : respond s msg =
      (mapDelete i s.pending, [Action.settle i (decodeSettle msg)]) := by
    unfold respond
    rw [hid]
    simp [h0, hget]
  rw [hr]
  simp

lemma mapGet_mapSet_self (k : Nat) (v : PendingRequest)
    (l : List (Nat × PendingRequest)) : mapGet k (mapSet k v l) = some v := by
  simp [mapGet, mapSet]

lemma mapGet_mapDelete_ne (i k : Nat) (l : List (Nat × PendingRequest))
    (h : i ≠ k) : mapGet i (mapDelete k l) = mapGet i l := by
  induction l with
  | nil => rfl
  | cons p rest ih =>
    by_cases hp : p.1 = k
    · have hpi : p.1 ≠ i := by
        rw [hp]
        exact fun he => h he.symm
      have hdel : mapDelete k (p :: rest) = mapDelete k rest := by
        simp [mapDelete, List.filter_cons, hp]
      rw [hdel, ih]
      simp [mapGet, hpi]
    · have hdel : mapDelete k (p :: rest) = p :: mapDelete k rest := by
        simp [mapDelete, List.filter_cons, hp]
      rw [hdel]
      by_cases hpi : p.1 = i
      · simp [mapGet, hpi]
      · simp only [mapGet, hpi, if_false]
        exact ih

lemma mapGet_mapSet_ne (i k : Nat) (v : PendingRequest)
    (l : List (Nat × PendingRequest)) (h : i ≠ k) :
    mapGet i (mapSet k v l) = mapGet i l := by
  have h1 : k ≠ i := fun he => h he.symm
  simp only [mapSet, mapGet, h1, if_false]
  exact mapGet_mapDelete_ne i k l h

lemma decodeSettle_ne_timeout (msg : Msg) (m : String) :
    decodeSettle msg ≠ Outcome.timeout m := by
  rcases msg with ⟨id, method, params, result, error⟩
  rcases error with _ | ⟨em⟩
  · simp [decodeSettle]
  · rcases em with _ | s
    · simp [decodeSettle]
    · by_cases hm : s = "" <;> simp [decodeSettle, hm]

lemma decodeSettle_ne_channelClosed (msg : Msg) :
    decodeSettle msg ≠ Outcome.channelClosed := by
  rcases msg with ⟨id, method, params, result, error⟩
  rcases error with _ | ⟨em⟩
  · simp [decodeSettle]
  · rcases em with _ | s
    · simp [decodeSettle]
    · by_cases hm : s = "" <;> simp [decodeSettle, hm]

lemma mapGet_mapDelete_self (k : Nat) (l : List (Nat × PendingRequest)) :
    mapGet k (mapDelete k l) = none := by
  induction l with
  | nil => rfl
  | cons p rest ih =>
    by_cases hp : p.1 = k
    · simpa [mapDelete, List.filter_cons, hp] using ih
    · have hdel : mapDelete k (p :: rest) = p :: mapDelete k rest := by
        simp [mapDelete, List.filter_cons, hp]
      rw [hdel]
      simp only [mapGet, hp, if_false]
      exact ih

/-- A call `i` whose pending entry never had an armed timer cannot settle
with a timeout: `i` stays within the assigned range, its pending entry
(while it exists) has no timer, and no timeout settlement for `i` has been
emitted. -/
def timeoutFree (i : Nat) (s : ConnState) (log : List Action) : Prop :=
  i ≤ s.nextId ∧
  (∀ pr, mapGet i s.pending = some pr → pr.timerArmed = false) ∧
  (∀ m, Action.settle i (Outcome.timeout m) ∉ log)

lemma step_timeoutFree (c : Config) (s : ConnState) (log : List Action)
    (e : Event) (i : Nat) (h : timeoutFree i s log) :
    timeoutFree i (step c s e).1 (log ++ (step c s e).2) := by
  obtain ⟨hle, harm, hlog⟩ := h
  cases e with
  | onReg m hd =>
    rw [step_onReg_eq]
    exact ⟨hle, harm, by simpa using hlog⟩
  | send m perCall =>
    have hne : i ≠ s.nextId + 1 := by omega
    refine ⟨Nat.le_succ_of_le hle, ?_, ?_⟩
    · intro pr hpr
      have hpr' : mapGet i (mapSet (s.nextId + 1)
          ⟨m, timerFor (effectiveTimeoutMs c perCall)⟩ s.pending) = some pr := hpr
      rw [mapGet_mapSet_ne _ _ _ _ hne] at hpr'
      exact harm pr hpr'
    · intro m' hmem
      have hmem' : Action.settle i (Outcome.timeout m') ∈
          log ++ [Action.assign (s.nextId + 1) m] := hmem
      rcases List.mem_append.mp hmem' with hm | hm
      · exact hlog m' hm
      · simp at hm
  | message msg =>
    rcases respond_cases s msg with hr | ⟨j, pr0, hid, hj0, hget, hr⟩
    · refine ⟨hle, ?_, ?_⟩
      · intro pr hpr
        have hpr' : mapGet i (respond s msg).1 = some pr := hpr
        rw [hr] at hpr'
        exact harm pr hpr'
      · intro m' hmem
        have hmem' : Action.settle i (Outcome.timeout m') ∈
            log ++ (deliveries s msg ++ (respond s msg).2) := hmem
        rw [hr] at hmem'
        rcases List.mem_append.mp hmem' with hm | hm
        · exact hlog m' hm
        · rcases List.mem_append.mp hm with hm2 | hm2
          · exact not_settle_mem_deliveries s msg i _ hm2
          · simp at hm2
    · refine ⟨hle, ?_, ?_⟩
      · intro pr hpr
        have hpr' : mapGet i (respond s msg).1 = some pr := hpr
        rw [hr] at hpr'
        by_cases hji : j = i
        · subst hji
          rw [mapGet_mapDelete_self] at hpr'
          exact absurd hpr' (by simp)
        · rw [mapGet_mapDelete_ne i j _ (fun he => hji he.symm)] at hpr'
          exact harm pr hpr'
      · intro m' hmem
        have hmem' : Action.settle i (Outcome.timeout m') ∈
            log ++ (deliveries s msg ++ (respond s msg).2) := hmem
        rw [hr] at hmem'
        rcases List.mem_append.mp hmem' with hm | hm
        · exact hlog m' hm
        · rcases List.mem_append.mp hm with hm2 | hm2
          · exact not_settle_mem_deliveries s msg i _ hm2
          · simp only [List.mem_singleton, Action.settle.injEq] at hm2
            exact absurd hm2.2.symm (decodeSettle_ne_timeout msg m')
  | timerFire j =>
    cases hget : mapGet j s.pending with
    | none =>
      rw [step_timerFire_none c s j hget]
      exact ⟨hle, harm, by simpa using hlog⟩
    | some pr =>
      cases ha : pr.timerArmed with
      | false =>
        rw [step_timerFire_unarmed c s j pr hget ha]
        exact ⟨hle, harm, by simpa using hlog⟩
      | true =>
        have hne : j ≠ i := by
          intro he
          subst he
          rw [harm pr hget] at ha
          exact Bool.false_ne_true ha
        rw [step_timerFire_armed c s j pr hget ha]
        refine ⟨hle, ?_, ?_⟩
        · intro pr' hpr
          have hpr' : mapGet i (mapDelete j s.pending) = some pr' := hpr
          rw [mapGet_mapDelete_ne i j _ (fun he => hne he.symm)] at hpr'
          exact harm pr' hpr'
        · intro m' hmem
          rcases List.mem_append.mp hmem with hm | hm
          · exact hlog m' hm
          · simp only [List.mem_singleton, Action.settle.injEq] at hm
            exact hne hm.1.symm
  | closeEvent =>
    rw [step_close_eq]
    refine ⟨hle, ?_, ?_⟩
    · intro pr hpr
      have hpr' : mapGet i ([] : List (Nat × PendingRequest)) = some pr := hpr
      simp [mapGet] at hpr'
    · intro m' hmem
      rcases List.mem_append.mp hmem with hm | hm
      · exact hlog m' hm
      · simp only [List.mem_map] at hm
        obtain ⟨p, hp, he⟩ := hm
        simp at he

lemma runFrom_timeoutFree (c : Config) (s : ConnState) (log : List Action)
    (es : List Event) (i : Nat) (h : timeoutFree i s log) :
    timeoutFree i (runFrom c s es).1 (log ++ (runFrom c s es).2) := by
  induction es generalizing s log with
  | nil => simpa [runFrom] using h
  | cons e es ih =>
    have h2 := ih (step c s e).1 (log ++ (step c s e).2)
      (step_timeoutFree c s log e i h)
    simpa [runFrom, List.append_assoc] using h2

/-- Registering one listener never removes another (nor itself). -/
lemma getHandlers_addHandler_mono (m madd : String) (hnew hd : Nat)
    (l : List (String × List Nat)) (h : hd ∈ getHandlers m l) :
    hd ∈ getHandlers m (addHandler madd hnew l) := by
  induction l with
  | nil => simp [getHandlers] at h
  | cons p rest ih =>
    rcases p with ⟨pm, phs⟩
    by_cases hpadd : pm = madd
    · subst hpadd
      by_cases hpm : pm = m
      · subst hpm
        simp only [getHandlers, if_pos rfl] at h
        simp only [addHandler, if_pos rfl, getHandlers]
        by_cases hin : hnew ∈ phs
        · simp only [if_pos hin, if_pos rfl]
          exact h
        · simp only [if_neg hin, if_pos rfl]
          exact List.mem_append_left _ h
      · simp only [getHandlers, if_neg hpm] at h
        simp only [addHandler, if_pos rfl, getHandlers, if_neg hpm]
        exact h
    · by_cases hpm : pm = m
      · subst hpm
        simp only [getHandlers, if_pos rfl] at h
        simp only [addHandler, if_neg hpadd, getHandlers, if_pos rfl]
        exact h
      · simp only [getHandlers, if_neg hpm] at h
        simp only [addHandler, if_neg hpadd, getHandlers, if_neg hpm]
        exact ih h

/-- No transport event removes a registered listener. -/
lemma step_handlers_mono (c : Config) (s : ConnState) (e : Event)
    (m : String) (hd : Nat) (h : hd ∈ getHandlers m s.eventHandlers) :
    hd ∈ getHandlers m (step c s e).1.eventHandlers := by
  cases e with
  | onReg madd hnew => exact getHandlers_addHandler_mono m madd hnew hd s.eventHandlers h
  | send m' t => exact h
  | message msg => exact h
  | timerFire j =>
    cases hget : mapGet j s.pending with
    | none =>
      rw [step_timerFire_none c s j hget]
      exact h
    | some pr =>
      cases ha : pr.timerArmed with
      | false =>
        rw [step_timerFire_unarmed c s j pr hget ha]
        exact h
      | true =>
        rw [step_timerFire_armed c s j pr hget ha]
        exact h
  | closeEvent => exact h

/-- The process-scan loop finds nothing when no line carries both the
debugging-port flag and the profile path. -/
lemma psLoop_none (env : DetectEnv) (normProfile : String)
    (lines : List String)
    (h : ∀ line ∈ lines, ¬(includes line "--remote-debugging-port=" = true ∧
      includes line normProfile = true)) :
    psLoop env normProfile lines = none := by
  induction lines with
  | nil => rfl
  | cons line rest ih =>
    have hline := h line (List.mem_cons_self line rest)
    have hmatch : lineMatch normProfile line = none := by
      unfold lineMatch
      rw [if_neg]
      intro hb
      rw [Bool.and_eq_true] at hb
      exact hline hb
    simp only [psLoop, hmatch]
    exact ih (fun l hl => h l (List.mem_cons_of_mem _ hl))

/-! ## The claims -/

/-- Claim C1: for concurrently issued `send` calls on one connection, each
call settles at most once over any event trace; any settlement performed
while a response message is processed is keyed by that message's own id and
carries that message's decoded payload; and a response whose id matches a
pending call does settle that call — matching is purely by identifier,
independent of arrival order. -/
theorem C1_response_matching (c : Config) (es₁ es₂ : List Event) (msg : Msg) :
    (settleIds (run c (es₁ ++ Event.message msg :: es₂)).2).Nodup ∧
    (∀ i o, Action.settle i o ∈ (step c (run c es₁).1 (Event.message msg)).2 →
      msg.id = some i ∧ o = decodeSettle msg) ∧
    (∀ j ∈ pendingIds (run c es₁).1, msg.id = some j →
      Action.settle j (decodeSettle msg) ∈
        (step c (run c es₁).1 (Event.message msg)).2) := by
  refine ⟨(run_inv c _).settle_nodup, ?_, ?_⟩
  · intro i o h
    exact settle_of_message_step c _ msg i o h
  · intro j hj hid
    have h1 := (run_inv c es₁).pend_le j hj
    exact message_settles_pending c _ msg j hid (by omega) hj

theorem C1_response_matching_witness :
    (settleIds (run ⟨none⟩ ([Event.send "m" none] ++
      Event.message ⟨some 1, none, none, some "R", none⟩ :: [])).2).Nodup ∧
    (∀ i o, Action.settle i o ∈ (step ⟨none⟩ (run ⟨none⟩ [Event.send "m" none]).1
        (Event.message ⟨some 1, none, none, some "R", none⟩)).2 →
      Msg.id ⟨some 1, none, none, some "R", none⟩ = some i ∧
        o = decodeSettle ⟨some 1, none, none, some "R", none⟩) ∧
    (∀ j ∈ pendingIds (run ⟨none⟩ [Event.send "m" none]).1,
      Msg.id ⟨some 1, none, none, some "R", none⟩ = some j →
      Action.settle j (decodeSettle ⟨some 1, none, none, some "R", none⟩) ∈
        (step ⟨none⟩ (run ⟨none⟩ [Event.send "m" none]).1
          (Event.message ⟨some 1, none, none, some "R", none⟩)).2) :=
  C1_response_matching ⟨none⟩ [Event.send "m" none] []
    ⟨some 1, none, none, some "R", none⟩

/-- Claim C2: if the channel closes while calls are outstanding, every
outstanding call is rejected with the channel-closed error at the close
step, and over the whole continued trace that call settles exactly once —
no later resolution attempt occurs. -/
theorem C2_close_rejects_all (c : Config) (es₁ es₂ : List Event) (i : Nat)
    (h : i ∈ pendingIds (run c es₁).1) :
    Action.settle i Outcome.channelClosed ∈
      (step c (run c es₁).1 Event.closeEvent).2 ∧
    (settleIds (run c (es₁ ++ Event.closeEvent :: es₂)).2).count i = 1 := by
  have hmem : Action.settle i Outcome.channelClosed ∈
      (step c (run c es₁).1 Event.closeEvent).2 := by
    rw [step_close_eq]
    obtain ⟨pr, hget⟩ :=
      mapGet_eq_some_of_mem_fst (l := (run c es₁).1.pending) h
    exact List.mem_map.mpr ⟨(i, pr), mem_fst_of_mapGet_eq_some hget, rfl⟩
  refine ⟨hmem, ?_⟩
  have hnd := (run_inv c (es₁ ++ Event.closeEvent :: es₂)).settle_nodup
  have hin : i ∈ settleIds (run c (es₁ ++ Event.closeEvent :: es₂)).2 := by
    rw [run_middle, step_close_eq]
    simp only [settleIds_append, List.mem_append, settleIds_closeActions]
    exact Or.inl (Or.inr h)
  exact List.count_eq_one_of_mem hnd hin

theorem C2_close_rejects_all_witness :
    1 ∈ pendingIds (run ⟨none⟩ [Event.send "m" none]).1 ∧
    (Action.settle 1 Outcome.channelClosed ∈
      (step ⟨none⟩ (run ⟨none⟩ [Event.send "m" none]).1 Event.closeEvent).2 ∧
     (settleIds (run ⟨none⟩
        ([Event.send "m" none] ++ Event.closeEvent :: [])).2).count 1 = 1) :=
  ⟨by decide, C2_close_rejects_all ⟨none⟩ [Event.send "m" none] [] 1 (by decide)⟩

/-- Claim C3: when a call's armed timer fires before any response, the step
settles exactly that call with its timeout error and discards its pending
entry, and over any continued trace — including one where a late response
bearing that id arrives — the call settles exactly once. -/
theorem C3_timeout_discards (c : Config) (es₁ es₂ : List Event) (i : Nat)
    (pr : PendingRequest)
    (hget : mapGet i (run c es₁).1.pending = some pr)
    (harm : pr.timerArmed = true) :
    (step c (run c es₁).1 (Event.timerFire i)).2 =
      [Action.settle i (Outcome.timeout pr.method)] ∧
    (settleIds (run c (es₁ ++ Event.timerFire i :: es₂)).2).count i = 1 := by
  have hstep := step_timerFire_armed c (run c es₁).1 i pr hget harm
  refine ⟨by rw [hstep], ?_⟩
  have hnd := (run_inv c (es₁ ++ Event.timerFire i :: es₂)).settle_nodup
  have hin : i ∈ settleIds (run c (es₁ ++ Event.timerFire i :: es₂)).2 := by
    rw [run_middle, hstep]
    simp only [settleIds_append, List.mem_append, settleIds_cons_settle,
      settleIds_nil, List.mem_singleton]
    exact Or.inl (Or.inr trivial)
  exact List.count_eq_one_of_mem hnd hin

theorem C3_timeout_discards_witness :
    mapGet 1 (run ⟨none⟩ [Event.send "m" none]).1.pending =
      some ⟨"m", true⟩ ∧
    (⟨"m", true⟩ : PendingRequest).timerArmed = true ∧
    ((step ⟨none⟩ (run ⟨none⟩ [Event.send "m" none]).1 (Event.timerFire 1)).2 =
      [Action.settle 1 (Outcome.timeout "m")] ∧
     (settleIds (run ⟨none⟩ ([Event.send "m" none] ++ Event.timerFire 1 ::
        [Event.message ⟨some 1, none, none, some "late", none⟩])).2).count 1 = 1) :=
  ⟨by decide, rfl, C3_timeout_discards ⟨none⟩ [Event.send "m" none]
    [Event.message ⟨some 1, none, none, some "late", none⟩] 1 ⟨"m", true⟩
    (by decide) rfl⟩

/-- Claim C4: the identifiers `send` assigns on one connection are exactly
`1, 2, …, nextId`, strictly increasing and never reused, and at most one
pending call exists per identifier in every reachable state. -/
theorem C4_ids_unique_monotonic (c : Config) (es : List Event) :
    assignedIds (run c es).2 = List.range' 1 (run c es).1.nextId ∧
    (assignedIds (run c es).2).Pairwise (· < ·) ∧
    (pendingIds (run c es).1).Nodup := by
  have hinv := run_inv c es
  refine ⟨hinv.assigns, ?_, hinv.pend_nodup⟩
  rw [hinv.assigns]
  exact List.pairwise_lt_range' 1 (run c es).1.nextId

/-- Claim C10: every assigned call id is at least `1` (the counter is
pre-incremented from `0`), so the read loop's truthiness test `if (msg.id)`
never discards a response addressed to a pending call: a message whose id
matches a pending call always settles it. -/
theorem C10_ids_positive_truthy (c : Config) (es : List Event) (i : Nat)
    (msg : Msg) (hp : i ∈ pendingIds (run c es).1) (hid : msg.id = some i) :
    1 ≤ i ∧ (∀ j ∈ assignedIds (run c es).2, 1 ≤ j) ∧
    Action.settle i (decodeSettle msg) ∈
      (step c (run c es).1 (Event.message msg)).2 := by
  have hinv := run_inv c es
  have h1 := hinv.pend_le i hp
  refine ⟨h1.1, ?_, ?_⟩
  · intro j hj
    rw [hinv.assigns] at hj
    exact (List.mem_range'_1.mp hj).1
  · exact message_settles_pending c _ msg i hid (by omega) hp

theorem C10_ids_positive_truthy_witness :
    1 ∈ pendingIds (run ⟨none⟩ [Event.send "m" none]).1 ∧
    Msg.id ⟨some 1, none, none, some "R", none⟩ = some 1 ∧
    (1 ≤ 1 ∧
     (∀ j ∈ assignedIds (run ⟨none⟩ [Event.send "m" none]).2, 1 ≤ j) ∧
     Action.settle 1 (decodeSettle ⟨some 1, none, none, some "R", none⟩) ∈
       (step ⟨none⟩ (run ⟨none⟩ [Event.send "m" none]).1
         (Event.message ⟨some 1, none, none, some "R", none⟩)).2) :=
  ⟨by decide, rfl, C10_ids_positive_truthy ⟨none⟩ [Event.send "m" none] 1
    ⟨some 1, none, none, some "R", none⟩ (by decide) rfl⟩

/-- Claim C5, counterexample: a `send` issued with an unset per-call timeout
on a default-configured connection does not wait indefinitely — the default
15 000 ms timeout arms a timer, and when it fires the call settles with the
timeout error. -/
theorem C5_counterexample :
    (run ⟨none⟩ [Event.send "Page.navigate" none, Event.timerFire 1]).2 =
      [Action.assign 1 "Page.navigate",
       Action.settle 1 (Outcome.timeout "Page.navigate")] := by
  rfl

/-- Claim C5 (amended): the default channel-wide timeout applies when no
per-call timeout is given; a call waits indefinitely — never settling with a
timeout error — exactly when its effective timeout (per-call if given, else
the default) is not positive, e.g. a per-call timeout of zero. -/
theorem C5_zero_timeout_waits_forever (c : Config) (m m' : String)
    (perCall : Option Int) (es₁ es₂ : List Event)
    (h : effectiveTimeoutMs c perCall ≤ 0) :
    effectiveTimeoutMs c none = c.resolvedDefault ∧
    Action.settle ((run c es₁).1.nextId + 1) (Outcome.timeout m') ∉
      (run c (es₁ ++ Event.send m perCall :: es₂)).2 := by
  refine ⟨rfl, ?_⟩
  intro hmem
  rw [run_middle] at hmem
  rcases List.mem_append.mp hmem with hmem | hmem
  · rcases List.mem_append.mp hmem with hmem | hmem
    · have hsid : (run c es₁).1.nextId + 1 ∈ settleIds (run c es₁).2 :=
        List.mem_filterMap.mpr ⟨_, hmem, rfl⟩
      have := (run_inv c es₁).settle_le _ hsid
      omega
    · have hmem' : Action.settle ((run c es₁).1.nextId + 1)
          (Outcome.timeout m') ∈
          [Action.assign ((run c es₁).1.nextId + 1) m] := hmem
      simp at hmem'
  · have htf : timeoutFree ((run c es₁).1.nextId + 1)
        (step c (run c es₁).1 (Event.send m perCall)).1 [] := by
      refine ⟨Nat.le_refl _, ?_, ?_⟩
      · intro pr hpr
        have hpr' : mapGet ((run c es₁).1.nextId + 1)
            (mapSet ((run c es₁).1.nextId + 1)
              ⟨m, timerFor (effectiveTimeoutMs c perCall)⟩
              (run c es₁).1.pending) = some pr := hpr
        rw [mapGet_mapSet_self] at hpr'
        injection hpr' with heq
        rw [← heq]
        show timerFor (effectiveTimeoutMs c perCall) = false
        simp only [timerFor, decide_eq_false_iff_not]
        omega
      · intro m'' hm
        simp at hm
    have hrun := runFrom_timeoutFree c _ [] es₂ _ htf
    exact hrun.2.2 m' (by simpa using hmem)

theorem C5_zero_timeout_waits_forever_witness :
    effectiveTimeoutMs ⟨none⟩ (some 0) ≤ 0 ∧
    (effectiveTimeoutMs ⟨none⟩ none = Config.resolvedDefault ⟨none⟩ ∧
     Action.settle ((run ⟨none⟩ []).1.nextId + 1) (Outcome.timeout "m") ∉
       (run ⟨none⟩ ([] ++ Event.send "m" (some 0) ::
         [Event.timerFire 1])).2) :=
  ⟨by decide, C5_zero_timeout_waits_forever ⟨none⟩ "m" "m" (some 0) []
    [Event.timerFire 1] (by decide)⟩

/-- Claim C6, counterexample: a response that carries an error field whose
message is the empty string is not rejected as a remote error — the
truthiness test `if (msg.error?.message)` fails, and the call resolves with
the result field instead. -/
theorem C6_counterexample :
    (run ⟨none⟩ [Event.send "m" (some 0),
      Event.message ⟨some 1, none, none, some "RES", some ⟨some ""⟩⟩]).2 =
      [Action.assign 1 "m", Action.settle 1 (Outcome.result (some "RES"))] := by
  rfl

/-- Claim C6 (amended): whenever a response carries an error field whose
message is present and non-empty, the call with the matching identifier
rejects with the remote error carrying that message (an error field with a
missing or empty message is ignored and the call resolves with the result
field). -/
theorem C6_remote_error (c : Config) (es : List Event) (msg : Msg) (i : Nat)
    (em : String) (pr : PendingRequest) (hid : msg.id = some i)
    (hget : mapGet i (run c es).1.pending = some pr)
    (herr : msg.error = some ⟨some em⟩) (hne : em ≠ "") :
    decodeSettle msg = Outcome.remoteError em ∧
    Action.settle i (Outcome.remoteError em) ∈
      (step c (run c es).1 (Event.message msg)).2 := by
  have hdec : decodeSettle msg = Outcome.remoteError em := by
    unfold decodeSettle
    rw [herr]
    simp [hne]
  refine ⟨hdec, ?_⟩
  have hp : i ∈ pendingIds (run c es).1 := mem_pendingIds_of_mapGet hget
  have h1 := (run_inv c es).pend_le i hp
  have hsettle := message_settles_pending c _ msg i hid (by omega) hp
  rwa [hdec] at hsettle

theorem C6_remote_error_witness :
    Msg.id ⟨some 1, none, none, none, some ⟨some "boom"⟩⟩ = some 1 ∧
    mapGet 1 (run ⟨none⟩ [Event.send "m" none]).1.pending =
      some ⟨"m", true⟩ ∧
    Msg.error ⟨some 1, none, none, none, some ⟨some "boom"⟩⟩ =
      some ⟨some "boom"⟩ ∧
    ("boom" ≠ "") ∧
    (decodeSettle ⟨some 1, none, none, none, some ⟨some "boom"⟩⟩ =
       Outcome.remoteError "boom" ∧
     Action.settle 1 (Outcome.remoteError "boom") ∈
       (step ⟨none⟩ (run ⟨none⟩ [Event.send "m" none]).1
         (Event.message ⟨some 1, none, none, none, some ⟨some "boom"⟩⟩)).2) :=
  ⟨rfl, by decide, rfl, by decide,
    C6_remote_error ⟨none⟩ [Event.send "m" none]
      ⟨some 1, none, none, none, some ⟨some "boom"⟩⟩ 1 "boom" ⟨"m", true⟩
      rfl (by decide) rfl (by decide)⟩

/-- Claim C7, counterexample: a message carrying both a method and a truthy
id is dispatched as an event *and* as a response — the same incoming message
both invokes the registered listener and settles the pending call. -/
theorem C7_counterexample :
    (run ⟨none⟩ [Event.onReg "Ev" 7, Event.send "m" none,
      Event.message ⟨some 1, some "Ev", some "P", some "R", none⟩]).2 =
      [Action.assign 1 "m", Action.deliver 7 "Ev" (some "P"),
       Action.settle 1 (Outcome.result (some "R"))] := by
  rfl

/-- Claim C7 (amended): every incoming message with a non-empty method is
delivered to each listener registered for that method, regardless of whether
it also carries an id; and a message settles a call only when it carries a
truthy (nonzero) id — so a message with both a method and a nonzero id is
dispatched both as an event and as a response. -/
theorem C7_event_dispatch (c : Config) (s : ConnState) (msg : Msg)
    (m : String) (hd : Nat) (hm : msg.method = some m) (hne : m ≠ "")
    (hh : hd ∈ getHandlers m s.eventHandlers) :
    Action.deliver hd m msg.params ∈ (step c s (Event.message msg)).2 ∧
    (∀ i o, Action.settle i o ∈ (step c s (Event.message msg)).2 →
      msg.id = some i ∧ i ≠ 0) := by
  constructor
  · rw [step_message_snd]
    apply List.mem_append_left
    unfold deliveries
    rw [hm]
    simp only [hne, if_false]
    exact List.mem_map.mpr ⟨hd, hh, rfl⟩
  · intro i o h
    rw [step_message_snd] at h
    rcases List.mem_append.mp h with h | h
    · exact absurd h (not_settle_mem_deliveries s msg i o)
    · rcases respond_cases s msg with hr | ⟨j, pr, hid, hj0, hget, hr⟩
      · rw [hr] at h
        simp at h
      · rw [hr] at h
        simp only [List.mem_singleton, Action.settle.injEq] at h
        obtain ⟨rfl, -⟩ := h
        exact ⟨hid, hj0⟩

theorem C7_event_dispatch_witness :
    Msg.method ⟨none, some "Ev", some "P", none, none⟩ = some "Ev" ∧
    ("Ev" ≠ "") ∧
    7 ∈ getHandlers "Ev" (ConnState.eventHandlers ⟨0, [], [("Ev", [7])]⟩) ∧
    (Action.deliver 7 "Ev" (some "P") ∈
      (step ⟨none⟩ ⟨0, [], [("Ev", [7])]⟩
        (Event.message ⟨none, some "Ev", some "P", none, none⟩)).2 ∧
     (∀ i o, Action.settle i o ∈
        (step ⟨none⟩ ⟨0, [], [("Ev", [7])]⟩
          (Event.message ⟨none, some "Ev", some "P", none, none⟩)).2 →
       Msg.id ⟨none, some "Ev", some "P", none, none⟩ = some i ∧ i ≠ 0)) :=
  ⟨rfl, by decide, by decide,
    C7_event_dispatch ⟨none⟩ ⟨0, [], [("Ev", [7])]⟩
      ⟨none, some "Ev", some "P", none, none⟩ "Ev" 7 rfl (by decide)
      (by decide)⟩

/-- Claim C8 (the code evaluated against the missing operation): the
transport's event language — built from exactly the operations the
`CdpConnection` class defines — contains no listener removal: under every
event, a registered listener stays registered.  The repository's own script
nevertheless calls `cdp.off(...)`, which the class does not define. -/
theorem C8_no_listener_removal (c : Config) (s : ConnState) (e : Event)
    (m : String) (hd : Nat) (h : hd ∈ getHandlers m s.eventHandlers) :
    hd ∈ getHandlers m (step c s e).1.eventHandlers :=
  step_handlers_mono c s e m hd h

theorem C8_no_listener_removal_witness :
    7 ∈ getHandlers "Page.fileChooserOpened"
      (ConnState.eventHandlers ⟨0, [], [("Page.fileChooserOpened", [7])]⟩) ∧
    7 ∈ getHandlers "Page.fileChooserOpened"
      (step ⟨none⟩ ⟨0, [], [("Page.fileChooserOpened", [7])]⟩
        Event.closeEvent).1.eventHandlers :=
  ⟨by decide,
    C8_no_listener_removal ⟨none⟩ ⟨0, [], [("Page.fileChooserOpened", [7])]⟩
      Event.closeEvent "Page.fileChooserOpened" 7 (by decide)⟩

/-- Claim C9: when the profile directory has no `DevToolsActivePort` marker
file (the read throws) and no running process line mentions both the
debugging-port flag and the profile path, `getExistingDebugPort` returns
`null` — it does not throw. -/
theorem C9_absent_returns_null (profileDir : String) (env : DetectEnv)
    (hmarker : env.readMarker = Except.error ())
    (hps : ∀ ps, env.psOutput = Except.ok ps → ∀ line ∈ ps.splitOn "\n",
      ¬(includes line "--remote-debugging-port=" = true ∧
        includes line (stripTrailingSlashes profileDir) = true)) :
    getExistingDebugPort profileDir env = Except.ok none := by
  have hm : markerPort env = none := by
    unfold markerPort
    rw [hmarker]
  unfold getExistingDebugPort
  rw [hm]
  cases hout : env.psOutput with
  | error u => rfl
  | ok ps =>
    show Except.ok (psLoop env (stripTrailingSlashes profileDir)
      (ps.splitOn "\n")) = Except.ok none
    rw [psLoop_none env _ _ (hps ps hout)]

theorem C9_absent_returns_null_witness :
    DetectEnv.readMarker
      ⟨Except.error (), fun _ => Except.ok false, Except.error ()⟩ =
      Except.error () ∧
    getExistingDebugPort "/home/user/profile"
      ⟨Except.error (), fun _ => Except.ok false, Except.error ()⟩ =
      Except.ok none :=
  ⟨rfl,
    C9_absent_returns_null "/home/user/profile"
      ⟨Except.error (), fun _ => Except.ok false, Except.error ()⟩ rfl
      (fun _ hp => absurd hp (fun he => Except.noConfusion he))⟩

end GrokCdp
